import Mathlib

/-!
# Verification of the CogniMail smart-scheduling engine

Shallow embedding of `src/services/smart_scheduler.py` and the parts of
`src/services/calendar_service.py` it consumes (the calendar read boundary).

Modelling conventions:
* Times are naive datetimes at minute granularity, encoded as `Nat` minutes
  since an epoch that falls on a Monday 00:00.  Hence `t / 1440` is the day
  index, `t % 1440 / 60` the clock hour, and Python's `weekday()` of a day
  index `d` is `d % 7` (Monday = 0, Saturday = 5, Sunday = 6).
* Scores are exact decimals held in tenths as integers (`1.0`, `0.2`, `0.1`
  become `10`, `2`, `1`): the Python code uses floats but only ever adds and
  subtracts the constants `1.0`, `±0.2`, `±0.1`, so the integer-tenths
  encoding is order- and value-isomorphic to the float computation.
* The Google Calendar backend is a `CalState` value: the organizer's
  `primary` event list, each participant's busy intervals, and failure flags
  for the two API call families.  The service-layer methods
  (`check_availability`, `get_calendar_conflicts`, `get_upcoming_events`)
  mirror `calendar_service.py`, including its catch-all handlers that turn a
  provider failure into an empty dict / empty list.
* Python `list.sort` is a stable sort; it is modelled by
  `List.insertionSort r` whose `orderedInsert` places the inserted (earlier)
  element before equal elements, which is exactly stable-sort behaviour.
* Python dict iteration order is insertion order; association lists preserve
  this order.
-/

/-- Mirrors the `CalendarEvent` dataclass (only the fields the engine reads). -/
structure CalendarEvent where
  id : String
  title : String
  start_time : Nat
  end_time : Nat
  deriving DecidableEq, Repr

/-- Mirrors the `MeetingRequest` dataclass.  `duration_minutes` is an
`Option Int` so that the Python `or`-default (`None` and `0` are falsy) can be
modelled faithfully.  `meeting.attendees or []` collapses `None` and `[]` to
`[]`, so attendees are modelled as a plain list. -/
structure MeetingRequest where
  title : String := ""
  proposed_times : List Nat := []
  duration_minutes : Option Int := some 60
  attendees : List String := []
  description : String := ""
  location : String := ""
  organizer_email : String := ""
  requires_response : Bool := true
  deriving DecidableEq, Repr

/-- Mirrors the `TimeSlot` dataclass of `smart_scheduler.py`; `score` holds
the Python float score in tenths (`1.2` becomes `12`). -/
structure TimeSlot where
  start_time : Nat
  end_time : Nat
  score : Int := 0
  attendee_conflicts : List (String × List CalendarEvent) := []
  notes : List String := []
  deriving DecidableEq, Repr

/-- The backing calendar world consumed by the engine: the organizer's
`primary` calendar, each attendee's busy intervals (their own calendars, as
reported by the free/busy API), and failure switches for the two API call
families (`freebusy().query` and `events().list`). -/
structure CalState where
  now : Nat
  primary : List CalendarEvent
  busy : String → List (Nat × Nat)
  fbFail : Nat → Nat → Bool
  listFail : Bool

/-- Clock hour of a time value (Python `datetime.hour`). -/
def hourOfDay (t : Nat) : Nat := t % 1440 / 60

/-- Day index of a time value (Python `datetime.date()`). -/
def dayOf (t : Nat) : Nat := t / 1440

/-! ## Scheduling preferences (the `self.preferences` dict) -/

def min_buffer_minutes : Nat := 15
def max_meetings_per_day : Nat := 8
def preferred_meeting_times : List (Nat × Nat) := [(9, 12), (14, 16)]
def lunch_time : Nat × Nat := (12, 13)
def working_hours : Nat × Nat := (9, 17)

/-! ## Calendar service boundary (`calendar_service.py`) -/

/-- Busy intervals the free/busy API reports for one calendar id.  The
special id `"primary"` is the organizer's own calendar. -/
def busyIntervals (st : CalState) (email : String) : List (Nat × Nat) :=
  if email = "primary" then st.primary.map (fun e => (e.start_time, e.end_time))
  else st.busy email

/-- Ordering used to model the API's `orderBy='startTime'`. -/
def evLe (a b : CalendarEvent) : Prop := a.start_time ≤ b.start_time

instance : DecidableRel evLe := fun a b => inferInstanceAs (Decidable (a.start_time ≤ b.start_time))

instance : IsTotal CalendarEvent evLe := ⟨fun a b => Nat.le_total a.start_time b.start_time⟩

instance : IsTrans CalendarEvent evLe := ⟨fun _ _ _ h h' => Nat.le_trans h h'⟩

/-- Models `CalendarService.check_availability`: one free/busy query for all
attendees plus `'primary'`; on a provider error the catch-all handler
returns the empty dict.  The result maps each id to "no busy interval
intersects `[s, e)`". -/
def check_availability (st : CalState) (s e : Nat) (attendees : List String) :
    List (String × Bool) :=
  if st.fbFail s e then []
  else
    (attendees.map fun email =>
      (email, ((busyIntervals st email).filter fun iv =>
        decide (iv.1 < e) && decide (s < iv.2)).isEmpty))
    ++ [("primary", ((busyIntervals st "primary").filter fun iv =>
        decide (iv.1 < e) && decide (s < iv.2)).isEmpty)]

/-- Models `CalendarService.get_calendar_conflicts`: `events().list` on the primary
calendar over `[s, e)` (events intersecting the range, ordered by start
time); the catch-all handler returns `[]` on failure. -/
def get_calendar_conflicts (st : CalState) (s e : Nat) : List CalendarEvent :=
  if st.listFail then []
  else
    List.insertionSort evLe
      (st.primary.filter fun ev => decide (ev.start_time < e) && decide (s < ev.end_time))

/-- Models `CalendarService.get_upcoming_events`: primary-calendar events from `now`
to `now + days_ahead` days, ordered by start time, capped at `max_results`;
`[]` on provider failure. -/
def get_upcoming_events (st : CalState) (days_ahead max_results : Nat) :
    List CalendarEvent :=
  if st.listFail then []
  else
    (List.insertionSort evLe
      (st.primary.filter fun ev =>
        decide (ev.start_time < st.now + days_ahead * 1440) && decide (st.now < ev.end_time))).take
      max_results

/-! ## Time slot generation (`SmartScheduler._generate_time_slots`) -/

/-- Inner double loop of `_generate_time_slots` for one (working) day:
hours `9..16`, minutes `0` and `30`; a slot whose end hour reaches
`working_hours.2 = 17` is dropped (`continue`). -/
def slotsForDay (day dur : Nat) : List TimeSlot :=
  (List.range' 9 8).flatMap fun hour =>
    [0, 30].filterMap fun minute =>
      let s := day * 1440 + hour * 60 + minute
      if 17 ≤ hourOfDay (s + dur) then none
      else some { start_time := s, end_time := s + dur }

/-- Models `_generate_time_slots(days_ahead, duration_minutes)`: days `1..days_ahead`
after the current day, weekends (`weekday() >= 5`) skipped. -/
def _generate_time_slots (now days_ahead dur : Nat) : List TimeSlot :=
  (List.range' 1 days_ahead).flatMap fun d =>
    let day := dayOf now + d
    if 5 ≤ day % 7 then [] else slotsForDay day dur

/-! ## Slot evaluation (`SmartScheduler._evaluate_time_slot`) -/

/-- The availability loop of `_evaluate_time_slot` (lines 272–281): starting
from `score = 1.0` and empty `conflicts`/`notes`, every unavailable entry of
the availability dict whose diagnostic conflict lookup is non-empty records
the conflicts, zeroes the score and appends a note. -/
def conflictLoop (st : CalState) (s e : Nat) (avail : List (String × Bool)) :
    Int × List (String × List CalendarEvent) × List String :=
  avail.foldl
    (fun acc p =>
      if p.2 then acc
      else
        let attendee_conflicts := get_calendar_conflicts st s e
        if attendee_conflicts.isEmpty then acc
        else
          (0, acc.2.1 ++ [(p.1, attendee_conflicts)],
            acc.2.2 ++ ["Conflicts for " ++ p.1]))
    (10, [], [])

/-- One step of the `min_buffer` accumulation of `_evaluate_time_slot`
(lines 299–306): an event entirely before the slot contributes the gap
`start - event.end`, one entirely after it the gap `event.start - end`;
events overlapping the slot are ignored.  `none` plays the role of
`float('inf')`. -/
def bufferStep (start_time end_time : Nat) (mb : Option Nat) (event : CalendarEvent) :
    Option Nat :=
  if event.end_time ≤ start_time then
    some (match mb with
      | none => start_time - event.end_time
      | some b => min b (start_time - event.end_time))
  else if end_time ≤ event.start_time then
    some (match mb with
      | none => event.start_time - end_time
      | some b => min b (event.start_time - end_time))
  else mb

/-- Models `_evaluate_time_slot`: returns `(score, conflicts, notes)`.
The Python timezone normalization does not change the clock time and has no
counterpart here; datetimes are never `None` in the model, so only the
`start_time >= end_time` validation branch is kept. -/
def _evaluate_time_slot (st : CalState) (start_time end_time : Nat)
    (attendees : List String) :
    Int × List (String × List CalendarEvent) × List String :=
  if end_time ≤ start_time then (0, [], ["Invalid time range"])
  else
    -- availability block, guarded by `if attendees:`
    let afterConf : Int × List (String × List CalendarEvent) × List String :=
      if attendees.isEmpty then (10, [], [])
      else conflictLoop st start_time end_time
        (check_availability st start_time end_time attendees)
    if afterConf.1 = 0 then afterConf
    else
      let score := afterConf.1
      let conflicts := afterConf.2.1
      let notes := afterConf.2.2
      -- preferred time bonus (the loop `break`s after the first matching window)
      let score_notes₁ :=
        if preferred_meeting_times.any fun w =>
            decide (w.1 ≤ hourOfDay start_time) && decide (hourOfDay start_time < w.2) then
          (score + 2, notes ++ ["Within preferred hours"])
        else (score, notes)
      -- buffer time bonus: neighbours within ±2 hours on the primary calendar
      let day_events := get_calendar_conflicts st (start_time - 120) (end_time + 120)
      let min_buffer : Option Nat :=
        day_events.foldl (bufferStep start_time end_time) none
      let score_notes₂ :=
        match min_buffer with
        | none => score_notes₁
        | some mb =>
          if min_buffer_minutes ≤ mb then
            (score_notes₁.1 + 1,
              score_notes₁.2 ++ ["Good buffer time: " ++ toString mb ++ " minutes"])
          else
            (score_notes₁.1 - 1,
              score_notes₁.2 ++ ["Limited buffer time: " ++ toString mb ++ " minutes"])
      -- lunch time penalty (hour-of-day comparison, as in the source)
      let score_notes₃ :=
        if hourOfDay start_time < lunch_time.2 ∧ lunch_time.1 < hourOfDay end_time then
          (score_notes₂.1 - 2, score_notes₂.2 ++ ["Conflicts with typical lunch hour"])
        else score_notes₂
      (score_notes₃.1, conflicts, score_notes₃.2)

/-! ## Conflict resolution (`SmartScheduler.resolve_conflicts`) -/

/-- Python `meeting.duration_minutes or 60`: `None` and `0` are falsy. -/
def pyOr (x : Option Int) (dflt : Int) : Int :=
  match x with
  | none => dflt
  | some v => if v = 0 then dflt else v

/-- Descending-score order used by `scored_slots.sort(key=..., reverse=True)`.
Stable insertion with this relation places an earlier element before a
later equal-score one, matching Python's stable sort. -/
def slotGE (a b : TimeSlot) : Prop := b.score ≤ a.score

instance : DecidableRel slotGE := fun a b => inferInstanceAs (Decidable (b.score ≤ a.score))

/-- The scoring loop of `resolve_conflicts` (lines 84–100): each candidate is
evaluated inside a `try`/`except` — an evaluation error is logged and the
candidate skipped (`continue`); a viable (`score > 0`) candidate is kept with
its score, conflicts and notes filled in. -/
def scoreLoop (eval : TimeSlot → Except String (Int × List (String × List CalendarEvent) × List String)) :
    List TimeSlot → List TimeSlot :=
  List.filterMap fun slot =>
    match eval slot with
    | .error _ => none
    | .ok r =>
      if 0 < r.1 then
        some { slot with score := r.1, attendee_conflicts := r.2.1, notes := r.2.2 }
      else none

/-- Models `SmartScheduler.resolve_conflicts`. -/
def resolve_conflicts (st : CalState) (meeting : MeetingRequest) : List TimeSlot :=
  let duration : Int := pyOr meeting.duration_minutes 60
  if duration ≤ 0 then []
  else
    let attendees := meeting.attendees
    let potential_slots := _generate_time_slots st.now 14 duration.toNat
    if potential_slots.isEmpty then []
    else
      let scored_slots :=
        scoreLoop
          (fun slot => .ok (_evaluate_time_slot st slot.start_time slot.end_time attendees))
          potential_slots
      (List.insertionSort slotGE scored_slots).take 5

/-! ## Calendar optimization (`SmartScheduler.optimize_calendar`) -/

/-- Models the suggestion dicts built by `optimize_calendar`
(the `'overbooked_day'` dict carries no `'events'` key; its `events` field
is `[]` here). -/
structure Suggestion where
  type : String
  date : Nat
  events : List String := []
  severity : String
  message : String
  deriving DecidableEq, Repr

/-- The `severity_order` dict `{'high': 0, 'medium': 1, 'low': 2}`; all
constructed suggestions carry one of the three keys, so the `KeyError`
case is unreachable and the default branch is arbitrary. -/
def sevOrder (s : Suggestion) : Nat :=
  if s.severity = "high" then 0 else if s.severity = "medium" then 1 else 2

/-- Order used by `suggestions.sort(key=lambda x: severity_order[x['severity']])`. -/
def sevLE (a b : Suggestion) : Prop := sevOrder a ≤ sevOrder b

instance : DecidableRel sevLE := fun a b => inferInstanceAs (Decidable (sevOrder a ≤ sevOrder b))

/-- One step of `events_by_day[day].append(event)` on an insertion-ordered
dict modelled as an association list. -/
def insertGroup : List (Nat × List CalendarEvent) → Nat → CalendarEvent →
    List (Nat × List CalendarEvent)
  | [], d, e => [(d, [e])]
  | (d', l) :: rest, d, e =>
    if d' = d then (d', l ++ [e]) :: rest else (d', l) :: insertGroup rest d e

/-- Grouping of events by `event.start_time.date()` preserving dict
insertion order (days in order of first occurrence, events appended). -/
def groupByDay (events : List CalendarEvent) : List (Nat × List CalendarEvent) :=
  events.foldl (fun acc e => insertGroup acc (dayOf e.start_time) e) []

/-- Adjacent pairs `(day_events[i], day_events[i+1])`. -/
def adjPairs : List CalendarEvent → List (CalendarEvent × CalendarEvent)
  | a :: b :: rest => (a, b) :: adjPairs (b :: rest)
  | _ => []

/-- The `insufficient_break` suggestion for one adjacent pair. -/
def breakSuggestion (day : Nat) (a b : CalendarEvent) : Suggestion :=
  { type := "insufficient_break", date := day, events := [a.id, b.id],
    severity := "medium",
    message := "Only " ++ toString ((b.start_time : Int) - (a.end_time : Int))
      ++ " minutes between meetings" }

/-- Per-day rule pass of `optimize_calendar`: overbooked check, then the
adjacent-pair break check, then the aggregated lunch check. -/
def daySuggestions (day : Nat) (day_events : List CalendarEvent) : List Suggestion :=
  (if max_meetings_per_day < day_events.length then
    [{ type := "overbooked_day", date := day, severity := "high",
       message := "Day is overbooked with " ++ toString day_events.length ++ " meetings" }]
  else [])
  ++ ((adjPairs day_events).filterMap fun p =>
        if (p.2.start_time : Int) - (p.1.end_time : Int) < (min_buffer_minutes : Int) then
          some (breakSuggestion day p.1 p.2)
        else none)
  ++ (let lunch_conflicts := day_events.filter fun ev =>
        decide (hourOfDay ev.start_time < lunch_time.2) && decide (lunch_time.1 < hourOfDay ev.end_time)
      if lunch_conflicts.isEmpty then []
      else
        [{ type := "lunch_conflict", date := day, events := lunch_conflicts.map (·.id),
           severity := "low", message := "Meetings scheduled during typical lunch hour" }])

/-- The suggestion list of `optimize_calendar` before the final severity sort. -/
def rawSuggestions (st : CalState) (days : Nat) : List Suggestion :=
  (groupByDay (get_upcoming_events st days 100)).flatMap fun p => daySuggestions p.1 p.2

/-- Models `SmartScheduler.optimize_calendar`.  `start_date` is accepted but, as in
the source, only `datetime.now()` (i.e. `st.now`) determines the fetched
window; on an event-fetch failure the catch-all path yields `[]`. -/
def optimize_calendar (st : CalState) (start_date : Nat) (days : Nat) : List Suggestion :=
  let events := get_upcoming_events st days 100
  if events.isEmpty then []
  else List.insertionSort sevLE (rawSuggestions st days)

/-! ## Concrete fixtures used by witnesses and counterexamples

`now = 0` is a Monday 00:00, so day 1 (the first generated day) is a Tuesday;
day-1 clock time `H:M` is minute `1440 + H * 60 + M` (e.g. 10:00 is 2040). -/

/-- Completely free world: empty primary calendar, every attendee free. -/
def stFree : CalState := ⟨0, [], fun _ => [], fun _ _ => false, false⟩

/-- Attendee `"a"` is busy 10:00–11:00 on day 1 on their own calendar; the
organizer's primary calendar is empty. -/
def stAttendeeBusy : CalState :=
  ⟨0, [], fun em => if em = "a" then [(2040, 2100)] else [], fun _ _ => false, false⟩

/-- Same busy attendee as `stAttendeeBusy`, but every free/busy query fails. -/
def stFbFails : CalState :=
  ⟨0, [], fun em => if em = "a" then [(2040, 2100)] else [], fun _ _ => true, false⟩

/-- The organizer's own primary calendar has an event 10:00–11:00 on day 1;
all attendees free. -/
def stPrimaryBusy : CalState :=
  ⟨0, [⟨"e1", "standup", 2040, 2100⟩], fun _ => [], fun _ _ => false, false⟩

/-- Attendee `"a"` busy 10:00–11:00 on day 1 and a matching event on the
organizer's primary calendar. -/
def stBothBusy : CalState :=
  ⟨0, [⟨"e1", "standup", 2040, 2100⟩],
    fun em => if em = "a" then [(2040, 2100)] else [], fun _ _ => false, false⟩

/-- A 60-minute meeting with single attendee `"a"`. -/
def reqA : MeetingRequest := { duration_minutes := some 60, attendees := ["a"] }

/-- A meeting whose `duration_minutes` is exactly `0`. -/
def reqZero : MeetingRequest := { duration_minutes := some 0, attendees := [] }

/-- A 60-minute meeting with an empty attendee list. -/
def reqNoAtt : MeetingRequest := { duration_minutes := some 60, attendees := [] }

/-- World for the optimizer fixtures: three events on day 0 — two back to
back (gap 5 < 15 minutes) and one crossing the lunch hour. -/
def stOpt : CalState :=
  ⟨0, [⟨"a1", "x", 600, 660⟩, ⟨"a2", "y", 665, 720⟩, ⟨"a3", "z", 740, 800⟩],
    fun _ => [], fun _ _ => false, false⟩

/-- World whose `events().list` calls fail (non-empty backing calendar, so
an empty result can only come from the failure path). -/
def stListFail : CalState :=
  ⟨0, [⟨"e1", "x", 600, 660⟩], fun _ => [], fun _ _ => false, true⟩

/-- The gap a single neighbouring event contributes to the buffer scan
(`none` for an event overlapping the slot). -/
def gapOf (start_time end_time : Nat) (ev : CalendarEvent) : Option Nat :=
  if ev.end_time ≤ start_time then some (start_time - ev.end_time)
  else if end_time ≤ ev.start_time then some (ev.start_time - end_time)
  else none

/-- Minimum accumulation on `Option Nat` (`none` = `float('inf')`). -/
def omin (mb : Option Nat) (g : Nat) : Option Nat :=
  some (match mb with | none => g | some b => min b g)

/-- The neighbour gaps inspected by the buffer rule: one per event of the
±2-hour window that lies entirely before or entirely after the slot. -/
def neighbourGaps (st : CalState) (start_time end_time : Nat) : List Nat :=
  (get_calendar_conflicts st (start_time - 120) (end_time + 120)).filterMap
    (gapOf start_time end_time)

/-! # Helper lemmas -/

/-! ## The availability loop -/

/-- The step function of `conflictLoop`, named for the proofs below. -/
def conflictStep (st : CalState) (s e : Nat)
    (acc : Int × List (String × List CalendarEvent) × List String) (p : String × Bool) :
    Int × List (String × List CalendarEvent) × List String :=
  if p.2 then acc
  else
    let attendee_conflicts := get_calendar_conflicts st s e
    if attendee_conflicts.isEmpty then acc
    else
      (0, acc.2.1 ++ [(p.1, attendee_conflicts)],
        acc.2.2 ++ ["Conflicts for " ++ p.1])

lemma conflictLoop_eq_foldl (st : CalState) (s e : Nat) (avail : List (String × Bool)) :
    conflictLoop st s e avail = avail.foldl (conflictStep st s e) (10, [], []) := rfl

lemma conflictStep_zero (st : CalState) (s e : Nat) (acc) (p : String × Bool)
    (h : acc.1 = 0) : (conflictStep st s e acc p).1 = 0 := by
  unfold conflictStep
  split
  · exact h
  · dsimp only
    split
    · exact h
    · rfl

lemma foldl_conflictStep_zero (st : CalState) (s e : Nat) (avail : List (String × Bool))
    (acc) (h : acc.1 = 0) :
    (avail.foldl (conflictStep st s e) acc).1 = 0 := by
  induction avail generalizing acc with
  | nil => exact h
  | cons p rest ih =>
    rw [List.foldl_cons]
    exact ih _ (conflictStep_zero st s e acc p h)

lemma foldl_conflictStep_eq_or_zero (st : CalState) (s e : Nat)
    (avail : List (String × Bool)) (acc) :
    avail.foldl (conflictStep st s e) acc = acc ∨
      (avail.foldl (conflictStep st s e) acc).1 = 0 := by
  induction avail generalizing acc with
  | nil => exact Or.inl rfl
  | cons p rest ih =>
    rw [List.foldl_cons]
    by_cases hp : p.2
    · have : conflictStep st s e acc p = acc := by unfold conflictStep; simp [hp]
      rw [this]; exact ih acc
    · by_cases hacs : (get_calendar_conflicts st s e).isEmpty
      · have : conflictStep st s e acc p = acc := by unfold conflictStep; simp [hp, hacs]
        rw [this]; exact ih acc
      · refine Or.inr (foldl_conflictStep_zero st s e rest _ ?_)
        unfold conflictStep
        simp [hp, hacs]

/-- Either nothing disqualified the slot (the loop is the identity on its
initial accumulator) or the score is `0`. -/
lemma conflictLoop_eq_or_zero (st : CalState) (s e : Nat) (avail : List (String × Bool)) :
    conflictLoop st s e avail = (10, [], []) ∨ (conflictLoop st s e avail).1 = 0 := by
  rw [conflictLoop_eq_foldl]
  exact foldl_conflictStep_eq_or_zero st s e avail _

/-- If every availability entry is `True`, the loop changes nothing. -/
lemma conflictLoop_all_available (st : CalState) (s e : Nat)
    (avail : List (String × Bool)) (h : ∀ p ∈ avail, p.2 = true) :
    conflictLoop st s e avail = (10, [], []) := by
  rw [conflictLoop_eq_foldl]
  induction avail with
  | nil => rfl
  | cons p rest ih =>
    rw [List.foldl_cons]
    have hp : conflictStep st s e (10, [], []) p = (10, [], []) := by
      unfold conflictStep
      simp [h p (List.mem_cons_self p rest)]
    rw [hp]
    exact ih (fun q hq => h q (List.mem_cons_of_mem p hq))

/-- The hard veto: an unavailable entry whose diagnostic lookup returns at
least one event forces score `0`. -/
lemma conflictLoop_veto (st : CalState) (s e : Nat) (avail : List (String × Bool))
    (p : String × Bool) (hmem : p ∈ avail) (hp : p.2 = false)
    (hacs : get_calendar_conflicts st s e ≠ []) :
    (conflictLoop st s e avail).1 = 0 := by
  rw [conflictLoop_eq_foldl]
  have hacs' : (get_calendar_conflicts st s e).isEmpty = false := by
    simpa [List.isEmpty_iff] using hacs
  suffices h : ∀ acc, (avail.foldl (conflictStep st s e) acc).1 = 0 by exact h _
  intro acc
  induction avail generalizing acc with
  | nil => cases hmem
  | cons q rest ih =>
    rw [List.foldl_cons]
    rcases List.mem_cons.mp hmem with rfl | hmem'
    · refine foldl_conflictStep_zero st s e rest _ ?_
      unfold conflictStep
      simp [hp, hacs']
    · exact ih hmem' _

/-! ## The buffer minimum -/

lemma bufferStep_eq (s e : Nat) (mb : Option Nat) (ev : CalendarEvent) :
    bufferStep s e mb ev =
      match gapOf s e ev with
      | none => mb
      | some g => omin mb g := by
  unfold bufferStep gapOf omin
  split_ifs <;> rfl

lemma foldl_bufferStep_eq (s e : Nat) (evs : List CalendarEvent) (mb : Option Nat) :
    evs.foldl (bufferStep s e) mb = (evs.filterMap (gapOf s e)).foldl omin mb := by
  induction evs generalizing mb with
  | nil => rfl
  | cons ev rest ih =>
    rw [List.foldl_cons, bufferStep_eq]
    cases hg : gapOf s e ev with
    | none => simp only [List.filterMap_cons, hg, ih]
    | some g => simp only [List.filterMap_cons, hg, List.foldl_cons, ih]

lemma foldl_omin_some (l : List Nat) (b : Nat) :
    l.foldl omin (some b) = some (l.foldl min b) := by
  induction l generalizing b with
  | nil => rfl
  | cons g rest ih =>
    rw [List.foldl_cons, List.foldl_cons]
    exact ih _

lemma foldl_omin_none (l : List Nat) : l.foldl omin none = l.min? := by
  cases l with
  | nil => rfl
  | cons g rest =>
    rw [List.foldl_cons]
    show List.foldl omin (some g) rest = _
    rw [foldl_omin_some]
    rfl

/-- The `min_buffer` fold computes exactly the minimum of the neighbour
gaps (`none` when no neighbour exists in the ±2-hour window). -/
lemma min_buffer_eq (st : CalState) (s e : Nat) :
    (get_calendar_conflicts st (s - 120) (e + 120)).foldl (bufferStep s e) none =
      (neighbourGaps st s e).min? := by
  rw [foldl_bufferStep_eq, foldl_omin_none]
  rfl

/-! ## Conflict-free evaluation formula -/

lemma preferred_any_iff (h : Nat) :
    ((preferred_meeting_times.any fun w =>
        decide (w.1 ≤ h) && decide (h < w.2)) = true) ↔
      (9 ≤ h ∧ h < 12) ∨ (14 ≤ h ∧ h < 16) := by
  simp [preferred_meeting_times]

/-- Scoring of a slot that no conflict disqualifies: baseline `1`, `+0.2`
for a preferred start hour, `±0.1` from the minimal neighbour gap (skipped
when no neighbour exists), `−0.2` from the hour-of-day lunch test; one note
per applied adjustment. -/
lemma eval_conflict_free (st : CalState) (s e : Nat) (attendees : List String)
    (hse : s < e)
    (hav : attendees.isEmpty = true ∨
      conflictLoop st s e (check_availability st s e attendees) = (10, [], [])) :
    _evaluate_time_slot st s e attendees =
      (let pref : Int × List String :=
        if (9 ≤ hourOfDay s ∧ hourOfDay s < 12) ∨ (14 ≤ hourOfDay s ∧ hourOfDay s < 16) then
          (10 + 2, ["Within preferred hours"])
        else (10, [])
       let buf : Int × List String :=
        match (neighbourGaps st s e).min? with
        | none => pref
        | some g =>
          if 15 ≤ g then
            (pref.1 + 1, pref.2 ++ ["Good buffer time: " ++ toString g ++ " minutes"])
          else
            (pref.1 - 1, pref.2 ++ ["Limited buffer time: " ++ toString g ++ " minutes"])
       let lunch : Int × List String :=
        if hourOfDay s < 13 ∧ 12 < hourOfDay e then
          (buf.1 - 2, buf.2 ++ ["Conflicts with typical lunch hour"])
        else buf
       (lunch.1, [], lunch.2)) := by
  have hne : ¬ (e ≤ s) := by omega
  have hconf : (if attendees.isEmpty then ((10 : Int), ([] : List (String × List CalendarEvent)), ([] : List String))
      else conflictLoop st s e (check_availability st s e attendees)) = (10, [], []) := by
    rcases hav with h | h
    · rw [if_pos h]
    · split
      · rfl
      · exact h
  unfold _evaluate_time_slot
  rw [if_neg hne]
  dsimp only
  rw [hconf]
  rw [if_neg (by norm_num : ¬ ((10 : Int), ([] : List (String × List CalendarEvent)), ([] : List String)).1 = 0)]
  dsimp only
  rw [min_buffer_eq]
  by_cases hpref : (9 ≤ hourOfDay s ∧ hourOfDay s < 12) ∨ (14 ≤ hourOfDay s ∧ hourOfDay s < 16)
  all_goals
    first
      | rw [if_pos ((preferred_any_iff (hourOfDay s)).mpr hpref), if_pos hpref]
      | rw [if_neg (fun hc => hpref ((preferred_any_iff (hourOfDay s)).mp hc)), if_neg hpref]
  all_goals
    cases hmb : (neighbourGaps st s e).min? with
    | none => rfl
    | some g =>
      dsimp only [min_buffer_minutes, lunch_time]
      all_goals (split_ifs <;> rfl)

/-- Bounds on the conflict-free score: within `[0.7, 1.3]`, and no recorded
conflicts. -/
lemma eval_formula_bounds (st : CalState) (s e : Nat) (attendees : List String)
    (hse : s < e)
    (hav : attendees.isEmpty = true ∨
      conflictLoop st s e (check_availability st s e attendees) = (10, [], [])) :
    7 ≤ (_evaluate_time_slot st s e attendees).1 ∧
      (_evaluate_time_slot st s e attendees).1 ≤ 13 ∧
      (_evaluate_time_slot st s e attendees).2.1 = [] := by
  rw [eval_conflict_free st s e attendees hse hav]
  dsimp only
  cases hmb : (neighbourGaps st s e).min? with
  | none => split_ifs <;> exact ⟨by norm_num, by norm_num, rfl⟩
  | some g =>
    dsimp only
    split_ifs <;> exact ⟨by norm_num, by norm_num, rfl⟩

/-- Every evaluation either scores `0` or lands in `[0.7, 1.3]` with an empty
conflict map. -/
lemma eval_score_cases (st : CalState) (s e : Nat) (attendees : List String) :
    (_evaluate_time_slot st s e attendees).1 = 0 ∨
      (7 ≤ (_evaluate_time_slot st s e attendees).1 ∧
        (_evaluate_time_slot st s e attendees).1 ≤ 13 ∧
        (_evaluate_time_slot st s e attendees).2.1 = []) := by
  by_cases hse : e ≤ s
  · left
    unfold _evaluate_time_slot
    rw [if_pos hse]
  · have hse' : s < e := by omega
    by_cases hemp : attendees.isEmpty
    · exact Or.inr (eval_formula_bounds st s e attendees hse' (Or.inl hemp))
    · rcases conflictLoop_eq_or_zero st s e (check_availability st s e attendees) with h | h
      · exact Or.inr (eval_formula_bounds st s e attendees hse' (Or.inr h))
      · left
        unfold _evaluate_time_slot
        rw [if_neg hse]
        dsimp only
        rw [if_neg hemp, if_pos h]
        exact h

/-- Inversion of `resolve_conflicts` membership: every returned slot is a
generated candidate, evaluated viable (`score > 0`), with the evaluated
score, conflicts and notes filled in. -/
lemma mem_resolve_conflicts (st : CalState) (meeting : MeetingRequest) (slot : TimeSlot)
    (h : slot ∈ resolve_conflicts st meeting) :
    ∃ g ∈ _generate_time_slots st.now 14 (pyOr meeting.duration_minutes 60).toNat,
      0 < (_evaluate_time_slot st g.start_time g.end_time meeting.attendees).1 ∧
      slot = { g with
        score := (_evaluate_time_slot st g.start_time g.end_time meeting.attendees).1,
        attendee_conflicts :=
          (_evaluate_time_slot st g.start_time g.end_time meeting.attendees).2.1,
        notes := (_evaluate_time_slot st g.start_time g.end_time meeting.attendees).2.2 } := by
  unfold resolve_conflicts at h
  dsimp only at h
  split_ifs at h with h1 h2
  · cases h
  · cases h
  · have h3 := (List.perm_insertionSort slotGE _).subset ((List.take_sublist 5 _).subset h)
    unfold scoreLoop at h3
    rcases List.mem_filterMap.mp h3 with ⟨g, hg, hsome⟩
    dsimp only at hsome
    rcases Option.ite_none_right_eq_some.mp hsome with ⟨hpos, heq⟩
    refine ⟨g, hg, hpos, ?_⟩
    injection heq with h'
    exact h'.symm

/-- Structural facts about every returned slot: empty conflict map and score
in `[0.7, 1.3]`. -/
lemma mem_resolve_score_bounds (st : CalState) (meeting : MeetingRequest) (slot : TimeSlot)
    (h : slot ∈ resolve_conflicts st meeting) :
    slot.attendee_conflicts = [] ∧ 7 ≤ slot.score ∧ slot.score ≤ 13 := by
  rcases mem_resolve_conflicts st meeting slot h with ⟨g, hg, hpos, rfl⟩
  rcases eval_score_cases st g.start_time g.end_time meeting.attendees with h0 | ⟨hb1, hb2, hcf⟩
  · rw [h0] at hpos
    norm_num at hpos
  · exact ⟨hcf, hb1, hb2⟩

/-! ## The time-slot generator -/

lemma mem_slotsForDay {day dur : Nat} {s : TimeSlot} :
    s ∈ slotsForDay day dur ↔
      ∃ hour minute, (9 ≤ hour ∧ hour < 17) ∧ (minute = 0 ∨ minute = 30) ∧
        hourOfDay (day * 1440 + hour * 60 + minute + dur) < 17 ∧
        s = { start_time := day * 1440 + hour * 60 + minute,
              end_time := day * 1440 + hour * 60 + minute + dur } := by
  unfold slotsForDay
  simp only [List.mem_flatMap, List.mem_filterMap, List.mem_range'_1, List.mem_cons,
    List.mem_singleton, List.not_mem_nil, or_false, Option.ite_none_left_eq_some,
    Option.some.injEq, not_le]
  constructor
  · rintro ⟨hour, ⟨h9, h17⟩, minute, hm, hend, heq⟩
    exact ⟨hour, minute, ⟨h9, by omega⟩, hm, hend, heq.symm⟩
  · rintro ⟨hour, minute, ⟨h9, h17⟩, hm, hend, heq⟩
    exact ⟨hour, ⟨h9, by omega⟩, minute, hm, hend, heq.symm⟩

lemma mem_generate {now days dur : Nat} {s : TimeSlot} :
    s ∈ _generate_time_slots now days dur ↔
      ∃ d, (1 ≤ d ∧ d ≤ days) ∧ (dayOf now + d) % 7 < 5 ∧
        ∃ hour minute, (9 ≤ hour ∧ hour < 17) ∧ (minute = 0 ∨ minute = 30) ∧
          hourOfDay ((dayOf now + d) * 1440 + hour * 60 + minute + dur) < 17 ∧
          s = { start_time := (dayOf now + d) * 1440 + hour * 60 + minute,
                end_time := (dayOf now + d) * 1440 + hour * 60 + minute + dur } := by
  unfold _generate_time_slots
  simp only [List.mem_flatMap, List.mem_range'_1]
  constructor
  · rintro ⟨d, ⟨h1, h2⟩, hmem⟩
    by_cases hw : 5 ≤ (dayOf now + d) % 7
    · rw [if_pos hw] at hmem
      cases hmem
    · rw [if_neg hw] at hmem
      rcases mem_slotsForDay.mp hmem with ⟨hour, minute, hh, hm, he, hs⟩
      exact ⟨d, ⟨h1, by omega⟩, by omega, hour, minute, hh, hm, he, hs⟩
  · rintro ⟨d, ⟨h1, h2⟩, hw, hour, minute, hh, hm, he, hs⟩
    refine ⟨d, ⟨h1, by omega⟩, ?_⟩
    rw [if_neg (by omega)]
    exact mem_slotsForDay.mpr ⟨hour, minute, hh, hm, he, hs⟩

/-- Invariants of every generated slot (for positive duration): proper
interval, weekday, working-hours start on the half-hour grid, end hour
before `17`, day strictly after the current day and within the horizon. -/
lemma generated_slot_props {now days dur : Nat} (hdur : 0 < dur) {s : TimeSlot}
    (h : s ∈ _generate_time_slots now days dur) :
    s.start_time < s.end_time ∧
      dayOf s.start_time % 7 < 5 ∧
      9 ≤ hourOfDay s.start_time ∧ hourOfDay s.start_time < 17 ∧
      (s.start_time % 60 = 0 ∨ s.start_time % 60 = 30) ∧
      hourOfDay s.end_time < 17 ∧
      dayOf now < dayOf s.start_time ∧ dayOf s.start_time ≤ dayOf now + days ∧
      s.end_time = s.start_time + dur := by
  rcases mem_generate.mp h with ⟨d, ⟨h1, h2⟩, hw, hour, minute, ⟨hh9, hh17⟩, hm, he, rfl⟩
  unfold hourOfDay dayOf at *
  dsimp only
  rcases hm with rfl | rfl <;> refine ⟨?_, ?_, ?_, ?_, ?_, ?_, ?_, ?_, ?_⟩ <;> omega

lemma slotsForDay_start_bounds {day dur : Nat} {s : TimeSlot} (h : s ∈ slotsForDay day dur) :
    day * 1440 + 540 ≤ s.start_time ∧ s.start_time ≤ day * 1440 + 990 := by
  rcases mem_slotsForDay.mp h with ⟨hour, minute, ⟨hh9, hh17⟩, hm, _, rfl⟩
  dsimp only
  rcases hm with rfl | rfl <;> omega

lemma pairwise_slotsForDay (day dur : Nat) :
    (slotsForDay day dur).Pairwise (fun a b => a.start_time < b.start_time) := by
  unfold slotsForDay
  rw [List.pairwise_flatMap]
  constructor
  · intro hour _
    rw [List.pairwise_filterMap]
    refine List.Pairwise.cons ?_ (List.Pairwise.cons (by intro y hy; cases hy) List.Pairwise.nil)
    intro m hm x hx y hy
    have hm' : m = 30 := by
      rcases List.mem_cons.mp hm with h | h
      · exact h
      · cases h
    subst hm'
    rcases Option.ite_none_left_eq_some.mp hx with ⟨_, hx'⟩
    rcases Option.ite_none_left_eq_some.mp hy with ⟨_, hy'⟩
    cases hx'
    cases hy'
    dsimp only
    omega
  · have hlt : List.Pairwise (· < ·) (List.range' 9 8) := by decide
    refine hlt.imp ?_
    intro h1 h2 hlt' x hx y hy
    rcases List.mem_filterMap.mp hx with ⟨m1, hm1, hx'⟩
    rcases List.mem_filterMap.mp hy with ⟨m2, hm2, hy'⟩
    rcases Option.ite_none_left_eq_some.mp hx' with ⟨_, hx''⟩
    rcases Option.ite_none_left_eq_some.mp hy' with ⟨_, hy''⟩
    cases hx''
    cases hy''
    have hb1 : m1 = 0 ∨ m1 = 30 := by
      rcases List.mem_cons.mp hm1 with h | h
      · exact Or.inl h
      · rcases List.mem_cons.mp h with h' | h'
        · exact Or.inr h'
        · cases h'
    have hb2 : m2 = 0 ∨ m2 = 30 := by
      rcases List.mem_cons.mp hm2 with h | h
      · exact Or.inl h
      · rcases List.mem_cons.mp h with h' | h'
        · exact Or.inr h'
        · cases h'
    dsimp only
    omega

lemma pairwise_generate (now dur : Nat) :
    (_generate_time_slots now 14 dur).Pairwise (fun a b => a.start_time < b.start_time) := by
  unfold _generate_time_slots
  rw [List.pairwise_flatMap]
  constructor
  · intro d _
    dsimp only
    split
    · exact List.Pairwise.nil
    · exact pairwise_slotsForDay _ dur
  · have hlt : List.Pairwise (· < ·) (List.range' 1 14) := by decide
    refine hlt.imp ?_
    intro d1 d2 hlt' x hx y hy
    dsimp only at hx hy
    by_cases w1 : 5 ≤ (dayOf now + d1) % 7
    · rw [if_pos w1] at hx
      cases hx
    · rw [if_neg w1] at hx
      by_cases w2 : 5 ≤ (dayOf now + d2) % 7
      · rw [if_pos w2] at hy
        cases hy
      · rw [if_neg w2] at hy
        have hb1 := slotsForDay_start_bounds hx
        have hb2 := slotsForDay_start_bounds hy
        omega

lemma pairwise_scoreLoop (eval) (l : List TimeSlot)
    (h : l.Pairwise (fun a b => a.start_time < b.start_time)) :
    (scoreLoop eval l).Pairwise (fun a b => a.start_time < b.start_time) := by
  unfold scoreLoop
  rw [List.pairwise_filterMap]
  refine h.imp ?_
  intro a b hab x hx y hy
  have hxa : x.start_time = a.start_time := by
    cases heval : eval a with
    | error _ => rw [heval] at hx; cases hx
    | ok r =>
      rw [heval] at hx
      dsimp only at hx
      rcases Option.ite_none_right_eq_some.mp (Option.mem_def.mp hx) with ⟨_, heq⟩
      cases heq
      rfl
  have hyb : y.start_time = b.start_time := by
    cases heval : eval b with
    | error _ => rw [heval] at hy; cases hy
    | ok r =>
      rw [heval] at hy
      dsimp only at hy
      rcases Option.ite_none_right_eq_some.mp (Option.mem_def.mp hy) with ⟨_, heq⟩
      cases heq
      rfl
  omega

/-! ## Stability of the descending-score sort -/

lemma orderedInsert_slotGE_lex (a : TimeSlot) (L : List TimeSlot)
    (hs : L.Pairwise (fun x y => y.score < x.score ∨ (x.score = y.score ∧ x.start_time < y.start_time)))
    (hstart : ∀ b ∈ L, a.score = b.score → a.start_time < b.start_time) :
    (List.orderedInsert slotGE a L).Pairwise
      (fun x y => y.score < x.score ∨ (x.score = y.score ∧ x.start_time < y.start_time)) := by
  induction L with
  | nil => exact List.Pairwise.cons (by intro y hy; cases hy) List.Pairwise.nil
  | cons b L ih =>
    rw [List.orderedInsert]
    by_cases hr : slotGE a b
    · rw [if_pos hr]
      refine List.Pairwise.cons ?_ hs
      intro c hc
      have hr' : b.score ≤ a.score := hr
      rcases List.mem_cons.mp hc with rfl | hc'
      · rcases lt_or_eq_of_le hr' with h | h
        · exact Or.inl h
        · exact Or.inr ⟨h.symm, hstart _ (List.mem_cons_self _ _) h.symm⟩
      · have hbc := (List.pairwise_cons.mp hs).1 c hc'
        rcases hbc with h | ⟨heq, _⟩
        · exact Or.inl (lt_of_lt_of_le h hr')
        · rcases lt_or_eq_of_le hr' with h' | h'
          · exact Or.inl (heq ▸ h')
          · refine Or.inr ⟨h'.symm.trans heq, ?_⟩
            exact hstart c (List.mem_cons_of_mem _ hc') (h'.symm.trans heq)
    · rw [if_neg hr]
      refine List.Pairwise.cons ?_
        (ih (List.pairwise_cons.mp hs).2
          (fun c hc h => hstart c (List.mem_cons_of_mem _ hc) h))
      intro c hc
      rcases (List.mem_orderedInsert slotGE).mp hc with rfl | hc'
      · exact Or.inl (not_le.mp hr)
      · exact (List.pairwise_cons.mp hs).1 c hc'

/-- Stable descending sort of a list with strictly increasing start times:
the result is sorted by score (non-increasing), with equal scores ordered by
start time. -/
lemma sorted_lex_insertionSort (l : List TimeSlot)
    (h : l.Pairwise (fun a b => a.start_time < b.start_time)) :
    (List.insertionSort slotGE l).Pairwise
      (fun x y => y.score < x.score ∨ (x.score = y.score ∧ x.start_time < y.start_time)) := by
  induction l with
  | nil => exact List.Pairwise.nil
  | cons a l ih =>
    rw [List.insertionSort]
    refine orderedInsert_slotGE_lex a _ (ih (List.pairwise_cons.mp h).2) ?_
    intro b hb _
    exact (List.pairwise_cons.mp h).1 b ((List.perm_insertionSort slotGE l).subset hb)

/-! ## Stability of the severity sort -/

lemma orderedInsert_append_of_none {α : Type} (r : α → α → Prop) [DecidableRel r]
    (a : α) (A B : List α) (h : ∀ y ∈ A, ¬ r a y) :
    List.orderedInsert r a (A ++ B) = A ++ List.orderedInsert r a B := by
  induction A with
  | nil => rfl
  | cons y A ih =>
    rw [List.cons_append, List.orderedInsert,
      if_neg (h y (List.mem_cons_self _ _)), ih (fun z hz => h z (List.mem_cons_of_mem _ hz))]
    rfl

lemma orderedInsert_eq_cons_of_all {α : Type} (r : α → α → Prop) [DecidableRel r]
    (a : α) (B : List α) (h : ∀ y ∈ B, r a y) :
    List.orderedInsert r a B = a :: B := by
  cases B with
  | nil => rfl
  | cons y B => rw [List.orderedInsert, if_pos (h y (List.mem_cons_self _ _))]

lemma sevOrder_cases (x : Suggestion) : sevOrder x = 0 ∨ sevOrder x = 1 ∨ sevOrder x = 2 := by
  unfold sevOrder
  split_ifs <;> simp

/-- Python's stable sort by the three-valued severity key is exactly
"highs (in original order), then mediums, then lows". -/
lemma insertionSort_sevLE_eq (l : List Suggestion) :
    List.insertionSort sevLE l =
      l.filter (fun x => sevOrder x == 0) ++ l.filter (fun x => sevOrder x == 1) ++
        l.filter (fun x => sevOrder x == 2) := by
  induction l with
  | nil => rfl
  | cons x l ih =>
    rw [List.insertionSort, ih]
    have hmem0 : ∀ y ∈ l.filter (fun x => sevOrder x == 0), sevOrder y = 0 := by
      intro y hy
      simpa using List.of_mem_filter hy
    have hmem1 : ∀ y ∈ l.filter (fun x => sevOrder x == 1), sevOrder y = 1 := by
      intro y hy
      simpa using List.of_mem_filter hy
    have hmem2 : ∀ y ∈ l.filter (fun x => sevOrder x == 2), sevOrder y = 2 := by
      intro y hy
      simpa using List.of_mem_filter hy
    rcases sevOrder_cases x with hx | hx | hx
    · rw [orderedInsert_eq_cons_of_all]
      · simp only [List.filter_cons, hx]
        norm_num
      · intro y _
        show sevOrder x ≤ sevOrder y
        omega
    · rw [List.append_assoc, orderedInsert_append_of_none]
      · rw [orderedInsert_eq_cons_of_all]
        · simp only [List.filter_cons, hx]
          norm_num
        · intro y hy
          show sevOrder x ≤ sevOrder y
          rcases List.mem_append.mp hy with h | h
          · have := hmem1 y h
            omega
          · have := hmem2 y h
            omega
      · intro y hy
        show ¬ sevOrder x ≤ sevOrder y
        have := hmem0 y hy
        omega
    · rw [List.append_assoc, orderedInsert_append_of_none, orderedInsert_append_of_none]
      · rw [orderedInsert_eq_cons_of_all]
        · simp only [List.filter_cons, hx]
          norm_num
        · intro y hy
          show sevOrder x ≤ sevOrder y
          have := hmem2 y hy
          omega
      · intro y hy
        show ¬ sevOrder x ≤ sevOrder y
        have := hmem1 y hy
        omega
      · intro y hy
        show ¬ sevOrder x ≤ sevOrder y
        have := hmem0 y hy
        omega

/-! ## The optimizer: grouping and suggestion structure -/

lemma insertGroup_sublist (acc : List (Nat × List CalendarEvent)) (d : Nat)
    (e : CalendarEvent) (pre : List CalendarEvent)
    (h : ∀ p ∈ acc, p.2.Sublist pre) :
    ∀ p ∈ insertGroup acc d e, p.2.Sublist (pre ++ [e]) := by
  induction acc with
  | nil =>
    intro p hp
    rcases List.mem_singleton.mp hp with rfl
    exact List.sublist_append_right pre [e]
  | cons q rest ih =>
    intro p hp
    rw [show insertGroup (q :: rest) d e =
        if q.1 = d then (q.1, q.2 ++ [e]) :: rest else q :: insertGroup rest d e from rfl] at hp
    split_ifs at hp with hd
    · rcases List.mem_cons.mp hp with rfl | hp'
      · exact List.Sublist.append (h q (List.mem_cons_self _ _)) (List.Sublist.refl [e])
      · exact (h p (List.mem_cons_of_mem _ hp')).trans (List.sublist_append_left pre [e])
    · rcases List.mem_cons.mp hp with rfl | hp'
      · exact (h p (List.mem_cons_self _ _)).trans (List.sublist_append_left pre [e])
      · exact ih (fun r hr => h r (List.mem_cons_of_mem _ hr)) p hp'

lemma foldl_insertGroup_sublist (l : List CalendarEvent)
    (acc : List (Nat × List CalendarEvent)) (pre : List CalendarEvent)
    (h : ∀ p ∈ acc, p.2.Sublist pre) :
    ∀ p ∈ l.foldl (fun acc e => insertGroup acc (dayOf e.start_time) e) acc,
      p.2.Sublist (pre ++ l) := by
  induction l generalizing acc pre with
  | nil =>
    intro p hp
    simpa using (h p hp)
  | cons e l ih =>
    intro p hp
    rw [List.foldl_cons] at hp
    have := ih (insertGroup acc (dayOf e.start_time) e) (pre ++ [e])
      (insertGroup_sublist acc (dayOf e.start_time) e pre h) p hp
    simpa [List.append_assoc] using this

/-- Every per-day bucket of `groupByDay` is a sublist of the event list. -/
lemma groupByDay_sublist (evs : List CalendarEvent) :
    ∀ p ∈ groupByDay evs, p.2.Sublist evs := by
  intro p hp
  have := foldl_insertGroup_sublist evs [] [] (by intro q hq; cases hq) p hp
  simpa using this

/-- The event fetch is always sorted by start time (the API's
`orderBy='startTime'`). -/
lemma get_upcoming_events_sorted (st : CalState) (days maxr : Nat) :
    (get_upcoming_events st days maxr).Pairwise evLe := by
  unfold get_upcoming_events
  split_ifs
  · exact List.Pairwise.nil
  · exact List.Pairwise.sublist (List.take_sublist _ _)
      (List.sorted_insertionSort evLe _)

/-- Every suggestion produced by one day's rule pass carries the matching
(type, severity) pair. -/
lemma mem_daySuggestions_type (day : Nat) (evs : List CalendarEvent) (x : Suggestion)
    (h : x ∈ daySuggestions day evs) :
    (x.type = "overbooked_day" ∧ x.severity = "high") ∨
      (x.type = "insufficient_break" ∧ x.severity = "medium") ∨
      (x.type = "lunch_conflict" ∧ x.severity = "low") := by
  unfold daySuggestions at h
  rcases List.mem_append.mp h with h' | h'
  · rcases List.mem_append.mp h' with h'' | h''
    · split_ifs at h'' with hc
      · rcases List.mem_singleton.mp h'' with rfl
        exact Or.inl ⟨rfl, rfl⟩
      · cases h''
    · rcases List.mem_filterMap.mp h'' with ⟨q, _, hq⟩
      rcases Option.ite_none_right_eq_some.mp hq with ⟨_, heq⟩
      cases heq
      exact Or.inr (Or.inl ⟨rfl, rfl⟩)
  · dsimp only at h'
    split_ifs at h' with hc
    · cases h'
    · rcases List.mem_singleton.mp h' with rfl
      exact Or.inr (Or.inr ⟨rfl, rfl⟩)

lemma mem_rawSuggestions_type (st : CalState) (days : Nat) (x : Suggestion)
    (h : x ∈ rawSuggestions st days) :
    (x.type = "overbooked_day" ∧ x.severity = "high") ∨
      (x.type = "insufficient_break" ∧ x.severity = "medium") ∨
      (x.type = "lunch_conflict" ∧ x.severity = "low") := by
  unfold rawSuggestions at h
  rcases List.mem_flatMap.mp h with ⟨p, _, hp⟩
  exact mem_daySuggestions_type p.1 p.2 x hp

/-- Within one day's pass, the suggestions of type `insufficient_break` are
exactly the adjacent-pair violations, in order. -/
lemma filter_break_daySuggestions (day : Nat) (evs : List CalendarEvent) :
    (daySuggestions day evs).filter (fun x => x.type == "insufficient_break") =
      (adjPairs evs).filterMap fun q =>
        if (q.2.start_time : Int) - (q.1.end_time : Int) < (min_buffer_minutes : Int) then
          some (breakSuggestion day q.1 q.2)
        else none := by
  unfold daySuggestions
  rw [List.filter_append, List.filter_append]
  have h1 : (if max_meetings_per_day < evs.length then
      [{ type := "overbooked_day", date := day, severity := "high",
         message := "Day is overbooked with " ++ toString evs.length ++ " meetings" : Suggestion}]
    else []).filter (fun x => x.type == "insufficient_break") = [] := by
    split_ifs <;> rfl
  have h3 : (let lunch_conflicts := evs.filter fun ev =>
        decide (hourOfDay ev.start_time < lunch_time.2) &&
          decide (lunch_time.1 < hourOfDay ev.end_time)
      if lunch_conflicts.isEmpty then ([] : List Suggestion)
      else
        [{ type := "lunch_conflict", date := day, events := lunch_conflicts.map (·.id),
           severity := "low",
           message := "Meetings scheduled during typical lunch hour" }]).filter
      (fun x => x.type == "insufficient_break") = [] := by
    dsimp only
    split_ifs <;> rfl
  rw [h1, h3]
  rw [List.nil_append, List.append_nil]
  rw [List.filter_eq_self.mpr]
  intro a ha
  rcases List.mem_filterMap.mp ha with ⟨q, _, hq⟩
  rcases Option.ite_none_right_eq_some.mp hq with ⟨_, heq⟩
  cases heq
  rfl

/-! # Claims -/

/-! ## C5 — time-slot generator invariants -/

/-- Claim C5, counterexample: with a 30-minute duration, the 16:30–17:00 slot
on day 1 is absent from the generated list even though its end (17:00, minute
2460 of the epoch) does not cross the working-hours end — the code discards
any slot whose end *hour* reaches `workEndHour`, which also drops a slot
ending exactly on the boundary. -/
theorem generate_slots_boundary_slot_missing :
    (⟨2430, 2460, 0, [], []⟩ : TimeSlot) ∉ _generate_time_slots 0 14 30 ∧
      2460 ≤ 1440 + working_hours.2 * 60 := by
  constructor
  · decide
  · decide

/-- Claim C5, amended: a slot is generated exactly for a weekday `d` in
`1..days` after the current day, a start hour in `[9, 17)` on the half-hour
grid, and an end whose *clock hour* is `< 17` (so a slot ending exactly at
17:00 is discarded, and an end wrapping past midnight to a small hour is
kept); every generated slot (for positive duration) is a proper interval on
a weekday within the horizon, starting within working hours. -/
theorem generate_slots_characterization :
    ∀ (now days dur : Nat), 0 < dur →
      ∀ s : TimeSlot,
        (s ∈ _generate_time_slots now days dur ↔
          ∃ d, (1 ≤ d ∧ d ≤ days) ∧ (dayOf now + d) % 7 < 5 ∧
            ∃ hour minute, (9 ≤ hour ∧ hour < 17) ∧ (minute = 0 ∨ minute = 30) ∧
              hourOfDay ((dayOf now + d) * 1440 + hour * 60 + minute + dur) < 17 ∧
              s = { start_time := (dayOf now + d) * 1440 + hour * 60 + minute,
                    end_time := (dayOf now + d) * 1440 + hour * 60 + minute + dur }) ∧
        (s ∈ _generate_time_slots now days dur →
          s.start_time < s.end_time ∧
            dayOf s.start_time % 7 < 5 ∧
            9 ≤ hourOfDay s.start_time ∧ hourOfDay s.start_time < 17 ∧
            (s.start_time % 60 = 0 ∨ s.start_time % 60 = 30) ∧
            hourOfDay s.end_time < 17 ∧
            dayOf now < dayOf s.start_time ∧ dayOf s.start_time ≤ dayOf now + days ∧
            s.end_time = s.start_time + dur) :=
  fun _ _ _ hdur _ => ⟨mem_generate, fun h => generated_slot_props hdur h⟩

theorem generate_slots_characterization_witness :
    (⟨1980, 2010, 0, [], []⟩ : TimeSlot).start_time <
      (⟨1980, 2010, 0, [], []⟩ : TimeSlot).end_time :=
  ((generate_slots_characterization 0 14 30 (by decide) ⟨1980, 2010, 0, [], []⟩).2
    (by decide)).1

/-! ## C3 — at most five slots, sorted by score with stable ties -/

/-- Claim C3: `resolve_conflicts` returns at most 5 slots, sorted
non-increasingly by score, equal scores ordered by earlier start time (the
stable order inherited from the chronological candidate list). -/
theorem resolve_conflicts_top5_sorted :
    ∀ (st : CalState) (meeting : MeetingRequest),
      (resolve_conflicts st meeting).length ≤ 5 ∧
      (resolve_conflicts st meeting).Pairwise
        (fun a b => b.score ≤ a.score ∧ (a.score = b.score → a.start_time < b.start_time)) := by
  intro st meeting
  unfold resolve_conflicts
  dsimp only
  split_ifs with h1 h2
  · exact ⟨by simp, List.Pairwise.nil⟩
  · exact ⟨by simp, List.Pairwise.nil⟩
  · constructor
    · rw [List.length_take]
      exact min_le_left _ _
    · have hp := pairwise_scoreLoop
        (fun slot => .ok (_evaluate_time_slot st slot.start_time slot.end_time meeting.attendees))
        (_generate_time_slots st.now 14 (pyOr meeting.duration_minutes 60).toNat)
        (pairwise_generate st.now _)
      have hs := sorted_lex_insertionSort _ hp
      refine (List.Pairwise.sublist (List.take_sublist 5 _) hs).imp ?_
      intro a b hab
      rcases hab with h | ⟨heq, hlt⟩
      · exact ⟨le_of_lt h, fun heq => absurd (heq ▸ h) (lt_irrefl _)⟩
      · exact ⟨le_of_eq heq.symm, fun _ => hlt⟩

theorem resolve_conflicts_top5_sorted_witness :
    (resolve_conflicts stFree reqNoAtt).length ≤ 5 ∧
      (resolve_conflicts stFree reqNoAtt).Pairwise
        (fun a b => b.score ≤ a.score ∧ (a.score = b.score → a.start_time < b.start_time)) :=
  resolve_conflicts_top5_sorted stFree reqNoAtt

/-! ## C10 — returned scores lie in [0.7, 1.3] -/

/-- Claim C10: every returned slot's score lies in `[0.7, 1.3]`, and a slot
that no conflict disqualifies always scores strictly above `0` — the
viability filter can only remove conflict-disqualified slots. -/
theorem resolve_conflicts_score_range :
    (∀ (st : CalState) (meeting : MeetingRequest) (slot : TimeSlot),
        slot ∈ resolve_conflicts st meeting →
          7 ≤ slot.score ∧ slot.score ≤ 13) ∧
    (∀ (st : CalState) (s e : Nat) (attendees : List String),
        s < e → (∀ p ∈ check_availability st s e attendees, p.2 = true) →
          0 < (_evaluate_time_slot st s e attendees).1) := by
  constructor
  · intro st m slot h
    exact ⟨(mem_resolve_score_bounds st m slot h).2.1,
      (mem_resolve_score_bounds st m slot h).2.2⟩
  · intro st s e attendees hse hav
    have hb := eval_formula_bounds st s e attendees hse
      (Or.inr (conflictLoop_all_available st s e _ hav))
    have := hb.1
    linarith

theorem resolve_conflicts_score_range_witness :
    (7 ≤ (⟨1980, 2040, 12, [], ["Within preferred hours"]⟩ : TimeSlot).score ∧
      (⟨1980, 2040, 12, [], ["Within preferred hours"]⟩ : TimeSlot).score ≤ 13) ∧
      0 < (_evaluate_time_slot stFree 2160 2190 ["a"]).1 :=
  ⟨resolve_conflicts_score_range.1 stFree reqNoAtt _ (by decide),
    resolve_conflicts_score_range.2 stFree 2160 2190 ["a"] (by decide) (by decide)⟩

/-! ## C1 — conflicts are a hard veto -/

/-- Claim C1, counterexample: attendee `"a"` is reported unavailable for the
day-1 10:00–11:00 slot, yet that slot appears in the returned list — the
organizer's primary calendar is empty, so the diagnostic conflict lookup
returns no events and the `if attendee_conflicts:` guard skips the veto. -/
theorem resolve_conflicts_unavailable_slot_returned :
    ("a", false) ∈ check_availability stAttendeeBusy 2040 2100 ["a"] ∧
      (⟨2040, 2100, 12, [], ["Within preferred hours"]⟩ : TimeSlot) ∈
        resolve_conflicts stAttendeeBusy reqA :=
  ⟨by decide, by decide⟩

/-- Claim C1, amended: a slot is vetoed (score `0`) when some availability
entry is unavailable *and* the organizer-calendar conflict lookup over the
slot returns at least one event; consequently every returned slot has an
empty recorded-conflict map and a positive score — no slot with a recorded
conflict is ever returned. -/
theorem resolve_conflicts_hard_veto :
    (∀ (st : CalState) (meeting : MeetingRequest) (slot : TimeSlot),
        slot ∈ resolve_conflicts st meeting →
          slot.attendee_conflicts = [] ∧ 0 < slot.score) ∧
    (∀ (st : CalState) (s e : Nat) (attendees : List String) (p : String × Bool),
        attendees ≠ [] → p ∈ check_availability st s e attendees → p.2 = false →
        get_calendar_conflicts st s e ≠ [] →
        (_evaluate_time_slot st s e attendees).1 = 0) := by
  constructor
  · intro st meeting slot h
    have hb := mem_resolve_score_bounds st meeting slot h
    exact ⟨hb.1, by omega⟩
  · intro st s e atts p hne hmem hp hacs
    by_cases hse : e ≤ s
    · unfold _evaluate_time_slot
      rw [if_pos hse]
    · have hempty : ¬ (atts.isEmpty = true) := by
        cases atts with
        | nil => exact absurd rfl hne
        | cons a l => simp
      have hz := conflictLoop_veto st s e (check_availability st s e atts) p hmem hp hacs
      unfold _evaluate_time_slot
      rw [if_neg hse]
      dsimp only
      rw [if_neg hempty, if_pos hz]
      exact hz

theorem resolve_conflicts_hard_veto_witness :
    ((⟨1980, 2040, 12, [], ["Within preferred hours"]⟩ : TimeSlot).attendee_conflicts = [] ∧
        0 < (⟨1980, 2040, 12, [], ["Within preferred hours"]⟩ : TimeSlot).score) ∧
      (_evaluate_time_slot stBothBusy 2040 2100 ["a"]).1 = 0 :=
  ⟨resolve_conflicts_hard_veto.1 stFree reqNoAtt _ (by decide),
    resolve_conflicts_hard_veto.2 stBothBusy 2040 2100 ["a"] ("a", false)
      (by decide) (by decide) (by decide) (by decide)⟩

/-! ## C2 — duration validation -/

/-- Claim C2, counterexample: a request whose `duration_minutes` is exactly
`0` does *not* return the empty list — `meeting.duration_minutes or 60`
treats `0` as falsy, substitutes the 60-minute default, and the search
proceeds (here it returns a full page of slots). -/
theorem resolve_conflicts_zero_duration_not_empty :
    resolve_conflicts stFree reqZero ≠ [] := by decide

/-- Claim C2, amended: only a *negative* duration fails validation and
returns `[]` immediately; a duration of exactly `0` is replaced by the
60-minute default and handled like an ordinary 60-minute request. -/
theorem resolve_conflicts_duration_validation :
    (∀ (st : CalState) (meeting : MeetingRequest) (d : Int),
        meeting.duration_minutes = some d → d < 0 → resolve_conflicts st meeting = []) ∧
    (∀ (st : CalState) (meeting : MeetingRequest),
        resolve_conflicts st { meeting with duration_minutes := some 0 } =
          resolve_conflicts st { meeting with duration_minutes := some 60 }) := by
  constructor
  · intro st meeting d hd hneg
    have hp : pyOr meeting.duration_minutes 60 = d := by
      rw [hd]
      show (if d = 0 then 60 else d) = d
      rw [if_neg (by omega)]
    unfold resolve_conflicts
    dsimp only
    rw [hp, if_pos (by omega)]
  · intro st meeting
    rfl

theorem resolve_conflicts_duration_validation_witness :
    resolve_conflicts stFree { duration_minutes := some (-5) } = [] :=
  resolve_conflicts_duration_validation.1 stFree { duration_minutes := some (-5) } (-5) rfl
    (by decide)

/-! ## C4 — the scoring formula -/

/-- Claim C4, counterexample: the 12:00–12:30 slot lies entirely inside the
lunch window `[12:00, 13:00)` (the intervals `[2160, 2190)` and
`[2160, 2220)` intersect), yet the evaluation applies no `−0.2` lunch
penalty and appends no note: the code's test `end_time.hour > 12` fails
because the end's clock hour is `12`, and the score stays `1.0` (`10`). -/
theorem evaluate_time_slot_lunch_overlap_unpenalized :
    _evaluate_time_slot stFree 2160 2190 ["a"] = (10, [], []) ∧
      max 2160 2160 < min 2190 2220 :=
  ⟨by decide, by decide⟩

/-- Claim C4, amended: a conflict-free slot scores baseline `1.0` (`10`),
`+0.2` if the start hour lies in a preferred window, `±0.1` from the minimal
neighbour gap within ±2 hours (skipped when no neighbour exists), and `−0.2`
when `start.hour < 13 ∧ end.hour > 12` — an hour-truncated lunch test, not
true interval overlap with the lunch window; one note is appended per
applied adjustment. -/
theorem evaluate_time_slot_scoring_formula :
    ∀ (st : CalState) (s e : Nat) (attendees : List String),
      s < e →
      (∀ p ∈ check_availability st s e attendees, p.2 = true) →
      _evaluate_time_slot st s e attendees =
        (let pref : Int × List String :=
          if (9 ≤ hourOfDay s ∧ hourOfDay s < 12) ∨ (14 ≤ hourOfDay s ∧ hourOfDay s < 16) then
            (10 + 2, ["Within preferred hours"])
          else (10, [])
         let buf : Int × List String :=
          match (neighbourGaps st s e).min? with
          | none => pref
          | some g =>
            if 15 ≤ g then
              (pref.1 + 1, pref.2 ++ ["Good buffer time: " ++ toString g ++ " minutes"])
            else
              (pref.1 - 1, pref.2 ++ ["Limited buffer time: " ++ toString g ++ " minutes"])
         let lunch : Int × List String :=
          if hourOfDay s < 13 ∧ 12 < hourOfDay e then
            (buf.1 - 2, buf.2 ++ ["Conflicts with typical lunch hour"])
          else buf
         (lunch.1, [], lunch.2)) ∧
      (_evaluate_time_slot st s e attendees).2.2.length =
        ((if (9 ≤ hourOfDay s ∧ hourOfDay s < 12) ∨ (14 ≤ hourOfDay s ∧ hourOfDay s < 16)
            then 1 else 0) +
          (if ((neighbourGaps st s e).min?).isSome then 1 else 0) +
          (if hourOfDay s < 13 ∧ 12 < hourOfDay e then 1 else 0)) := by
  intro st s e attendees hse hav
  have hform := eval_conflict_free st s e attendees hse
    (Or.inr (conflictLoop_all_available st s e _ hav))
  refine ⟨hform, ?_⟩
  rw [hform]
  clear hform
  dsimp only
  cases hmb : (neighbourGaps st s e).min? with
  | none => split_ifs <;> simp_all
  | some g =>
    dsimp only
    split_ifs <;> simp_all

theorem evaluate_time_slot_scoring_formula_witness :
    _evaluate_time_slot stFree 1980 2040 ["a"] = (12, [], ["Within preferred hours"]) :=
  (evaluate_time_slot_scoring_formula stFree 1980 2040 ["a"] (by decide) (by decide)).1.trans
    (by decide)

/-! ## C6 — failure semantics -/

/-- Claim C6, counterexample: every free/busy lookup fails and attendee `"a"`
is in fact busy over the day-1 10:00 slot, yet the slot is returned as if it
were conflict-free — the service layer's catch-all turns the provider failure
into an empty availability map, so a failing availability lookup does *not*
cause the candidate to be skipped. -/
theorem resolve_conflicts_lookup_failure_not_skipped :
    (⟨2040, 2100, 12, [], ["Within preferred hours"]⟩ : TimeSlot) ∈
      resolve_conflicts stFbFails reqA := by decide

/-- Claim C6, amended: an error raised *inside* one candidate's evaluation is
caught and that candidate alone is skipped; a *provider* failure of the
free/busy lookup is absorbed at the service layer as an empty availability
map, so the slot is evaluated exactly as if no attendees had been given
(included, not skipped); and a failing event fetch makes `optimize_calendar`
return `[]` — both engine operations always return a plain list. -/
theorem scheduler_failure_semantics :
    (∀ (eval : TimeSlot → Except String (Int × List (String × List CalendarEvent) × List String))
        (l₁ l₂ : List TimeSlot) (s : TimeSlot) (msg : String),
        eval s = .error msg →
          scoreLoop eval (l₁ ++ s :: l₂) = scoreLoop eval (l₁ ++ l₂)) ∧
    (∀ (st : CalState) (s e : Nat) (attendees : List String),
        st.fbFail s e = true →
          _evaluate_time_slot st s e attendees = _evaluate_time_slot st s e []) ∧
    (∀ (st : CalState) (start_date days : Nat),
        st.listFail = true → optimize_calendar st start_date days = []) := by
  refine ⟨?_, ?_, ?_⟩
  · intro eval l₁ l₂ s msg h
    unfold scoreLoop
    rw [List.filterMap_append, List.filterMap_append, List.filterMap_cons, h]
  · intro st s e attendees hf
    have h1 : check_availability st s e attendees = [] := by
      unfold check_availability
      rw [if_pos hf]
    unfold _evaluate_time_slot
    rw [h1]
    split_ifs <;> first | rfl | simp_all
  · intro st start_date days h
    unfold optimize_calendar get_upcoming_events
    rw [if_pos h]
    rfl

theorem scheduler_failure_semantics_witness :
    scoreLoop (fun _ => .error "boom") ([] ++ (⟨0, 1, 0, [], []⟩ : TimeSlot) :: []) =
        scoreLoop (fun _ => .error "boom") ([] ++ []) ∧
      _evaluate_time_slot stFbFails 2040 2100 ["a"] = _evaluate_time_slot stFbFails 2040 2100 [] ∧
      optimize_calendar stListFail 0 7 = [] :=
  ⟨scheduler_failure_semantics.1 (fun _ => .error "boom") [] [] ⟨0, 1, 0, [], []⟩ "boom" rfl,
    scheduler_failure_semantics.2.1 stFbFails 2040 2100 ["a"] rfl,
    scheduler_failure_semantics.2.2 stListFail 0 7 rfl⟩

/-! ## C7 — empty attendee list -/

/-- Claim C7, counterexample: with an empty attendee list and the organizer's
own primary calendar busy exactly over the day-1 10:00–11:00 slot, that slot
is still returned — no availability check is performed at all, so an
organizer conflict can never disqualify a slot. -/
theorem resolve_conflicts_organizer_conflict_not_vetoed :
    (⟨2040, 2100, 12, [], ["Within preferred hours"]⟩ : TimeSlot) ∈
      resolve_conflicts stPrimaryBusy reqNoAtt := by decide

/-- Claim C7, amended: with an empty attendee list the evaluation consults no
free/busy data at all — it is independent of every participant calendar and
of the free/busy failure behaviour — and a proper slot always keeps a
positive (≥ 0.7) score with no recorded conflicts; the organizer's calendar
influences only the buffer scoring, never disqualification. -/
theorem evaluate_time_slot_empty_attendees :
    ∀ (st : CalState) (s e : Nat) (b : String → List (Nat × Nat)) (f : Nat → Nat → Bool),
      _evaluate_time_slot { st with busy := b, fbFail := f } s e [] =
          _evaluate_time_slot st s e [] ∧
        (s < e →
          7 ≤ (_evaluate_time_slot st s e []).1 ∧
            (_evaluate_time_slot st s e []).2.1 = []) := by
  intro st s e b f
  constructor
  · rfl
  · intro hse
    have hb := eval_formula_bounds st s e [] hse (Or.inl rfl)
    exact ⟨hb.1, hb.2.2⟩

theorem evaluate_time_slot_empty_attendees_witness :
    _evaluate_time_slot
        { stPrimaryBusy with busy := fun _ => [(0, 100000)], fbFail := fun _ _ => true }
        2040 2100 [] =
      _evaluate_time_slot stPrimaryBusy 2040 2100 [] ∧
      7 ≤ (_evaluate_time_slot stPrimaryBusy 2040 2100 []).1 :=
  ⟨(evaluate_time_slot_empty_attendees stPrimaryBusy 2040 2100
      (fun _ => [(0, 100000)]) (fun _ _ => true)).1,
    ((evaluate_time_slot_empty_attendees stPrimaryBusy 2040 2100
      (fun _ => []) (fun _ _ => false)).2 (by decide)).1⟩

/-! ## C8 — insufficient-break suggestions -/

/-- Claim C8: events are grouped by calendar day with each bucket sorted by
start time (inherited from the start-ordered fetch), and the
`insufficient_break` suggestions in the final output are exactly one
medium-severity suggestion per adjacent same-day pair whose gap is below
`min_buffer_minutes`, referencing both event ids, in day order. -/
theorem optimize_calendar_breaks :
    ∀ (st : CalState) (start_date days : Nat),
      (∀ p ∈ groupByDay (get_upcoming_events st days 100), p.2.Pairwise evLe) ∧
      (optimize_calendar st start_date days).filter (fun x => x.type == "insufficient_break") =
        (groupByDay (get_upcoming_events st days 100)).flatMap (fun p =>
          (adjPairs p.2).filterMap fun q =>
            if (q.2.start_time : Int) - (q.1.end_time : Int) < (min_buffer_minutes : Int) then
              some (breakSuggestion p.1 q.1 q.2)
            else none) := by
  intro st start_date days
  constructor
  · intro p hp
    exact List.Pairwise.sublist (groupByDay_sublist _ p hp)
      (get_upcoming_events_sorted st days 100)
  · unfold optimize_calendar
    dsimp only
    split_ifs with h
    · rw [List.isEmpty_iff.mp h]
      rfl
    · rw [insertionSort_sevLE_eq, List.filter_append, List.filter_append]
      have h0 : (List.filter (fun x => sevOrder x == 0) (rawSuggestions st days)).filter
          (fun x => x.type == "insufficient_break") = [] := by
        rw [List.filter_filter]
        rw [List.filter_eq_nil_iff]
        intro a ha
        rcases mem_rawSuggestions_type st days a ha with ⟨ht, hs⟩ | ⟨ht, hs⟩ | ⟨ht, hs⟩ <;>
          simp [sevOrder, ht, hs]
      have h2 : (List.filter (fun x => sevOrder x == 2) (rawSuggestions st days)).filter
          (fun x => x.type == "insufficient_break") = [] := by
        rw [List.filter_filter]
        rw [List.filter_eq_nil_iff]
        intro a ha
        rcases mem_rawSuggestions_type st days a ha with ⟨ht, hs⟩ | ⟨ht, hs⟩ | ⟨ht, hs⟩ <;>
          simp [sevOrder, ht, hs]
      have h1 : (List.filter (fun x => sevOrder x == 1) (rawSuggestions st days)).filter
          (fun x => x.type == "insufficient_break") =
          (rawSuggestions st days).filter (fun x => x.type == "insufficient_break") := by
        rw [List.filter_filter]
        refine List.filter_congr ?_
        intro a ha
        rcases mem_rawSuggestions_type st days a ha with ⟨ht, hs⟩ | ⟨ht, hs⟩ | ⟨ht, hs⟩ <;>
          simp [sevOrder, ht, hs]
      rw [h0, h1, h2, List.nil_append, List.append_nil]
      unfold rawSuggestions
      rw [List.filter_flatMap]
      simp only [filter_break_daySuggestions]

theorem optimize_calendar_breaks_witness :
    (optimize_calendar stOpt 0 7).filter (fun x => x.type == "insufficient_break") =
      [breakSuggestion 0 ⟨"a1", "x", 600, 660⟩ ⟨"a2", "y", 665, 720⟩] :=
  ((optimize_calendar_breaks stOpt 0 7).2).trans (by decide)

/-! ## C9 — severity-sorted suggestions -/

/-- Claim C9: the suggestion list returned by `optimize_calendar` is exactly
the high-severity suggestions (in build order: day-chronological, rules
overbooked → break → lunch), then the medium ones, then the low ones — in
particular it is sorted `high → medium → low` and the in-tier relative
order of the pre-sort pass is preserved (Python's sort is stable). -/
theorem optimize_calendar_severity_sorted :
    ∀ (st : CalState) (start_date days : Nat),
      optimize_calendar st start_date days =
          (rawSuggestions st days).filter (fun x => sevOrder x == 0) ++
            (rawSuggestions st days).filter (fun x => sevOrder x == 1) ++
            (rawSuggestions st days).filter (fun x => sevOrder x == 2) ∧
        (optimize_calendar st start_date days).Pairwise sevLE := by
  intro st start_date days
  have hdec : optimize_calendar st start_date days =
      (rawSuggestions st days).filter (fun x => sevOrder x == 0) ++
        (rawSuggestions st days).filter (fun x => sevOrder x == 1) ++
        (rawSuggestions st days).filter (fun x => sevOrder x == 2) := by
    unfold optimize_calendar
    dsimp only
    split_ifs with h
    · have hraw : rawSuggestions st days = [] := by
        unfold rawSuggestions
        rw [List.isEmpty_iff.mp h]
        rfl
      rw [hraw]
      rfl
    · exact insertionSort_sevLE_eq _
  refine ⟨hdec, ?_⟩
  rw [hdec]
  have m0 : ∀ x ∈ (rawSuggestions st days).filter (fun x => sevOrder x == 0),
      sevOrder x = 0 := by
    intro x hx
    simpa using List.of_mem_filter hx
  have m1 : ∀ x ∈ (rawSuggestions st days).filter (fun x => sevOrder x == 1),
      sevOrder x = 1 := by
    intro x hx
    simpa using List.of_mem_filter hx
  have m2 : ∀ x ∈ (rawSuggestions st days).filter (fun x => sevOrder x == 2),
      sevOrder x = 2 := by
    intro x hx
    simpa using List.of_mem_filter hx
  refine List.pairwise_append.mpr ⟨List.pairwise_append.mpr ⟨?_, ?_, ?_⟩, ?_, ?_⟩
  · refine List.pairwise_of_forall_mem_list ?_
    intro a ha b hb
    show sevOrder a ≤ sevOrder b
    rw [m0 a ha, m0 b hb]
  · refine List.pairwise_of_forall_mem_list ?_
    intro a ha b hb
    show sevOrder a ≤ sevOrder b
    rw [m1 a ha, m1 b hb]
  · intro a ha b hb
    show sevOrder a ≤ sevOrder b
    rw [m0 a ha, m1 b hb]
    omega
  · refine List.pairwise_of_forall_mem_list ?_
    intro a ha b hb
    show sevOrder a ≤ sevOrder b
    rw [m2 a ha, m2 b hb]
  · intro a ha b hb
    show sevOrder a ≤ sevOrder b
    rcases List.mem_append.mp ha with h' | h'
    · rw [m0 a h', m2 b hb]
      omega
    · rw [m1 a h', m2 b hb]
      omega

theorem optimize_calendar_severity_sorted_witness :
    optimize_calendar stOpt 0 7 =
      [breakSuggestion 0 ⟨"a1", "x", 600, 660⟩ ⟨"a2", "y", 665, 720⟩,
        ⟨"lunch_conflict", 0, ["a3"], "low", "Meetings scheduled during typical lunch hour"⟩] :=
  ((optimize_calendar_severity_sorted stOpt 0 7).1).trans (by decide)
